import Mathlib

/-!
Verification of the cost-forecasting subsystem of the ai-cost-dashboard
repository against its natural-language specification.

The repository's TypeScript API routes (`validateDateRange`, the zod
validation schemas, and the cost-summary aggregation) are embedded
directly from the source.  The Python forecasting service
(`prophet_model.py`, the `CostForecaster` class with `train`,
`forecast`, `train_and_forecast` and `get_latest_forecasts`) is not
present in the repository snapshot — only its documentation, its SQL
schema (`forecast_results`) and its callers are — so those operations
are modelled from the specification, as marked in the doc comments.

Conventions: machine reals are modelled as `ℚ`; timestamps are integer
milliseconds (or seconds) since the epoch; calendar days are integer
day numbers (UTC truncation is integer floor division by 86400).
-/

namespace CostDashboard

/-- Modelled from the spec: `CostEvent`, the raw per-event cost row
consumed by the HistoryAggregator (`prophet_model.py` is missing from
the snapshot; the spec gives the data model in section 3). -/
structure CostEvent where
  user_id : String
  provider_id : String
  timestamp : ℤ
  cost_usd : ℚ
  model_name : String
deriving DecidableEq, Repr

/-- Modelled from the spec: one entry of a `DailySeries` — a calendar
day (UTC day number) and the summed cost for that day. -/
structure DailyPoint where
  date : ℤ
  cost_usd : ℚ
deriving DecidableEq, Repr

/-- UTC calendar-day truncation of an epoch timestamp in seconds:
floor division by 86400. -/
def dayOf (t : ℤ) : ℤ := Int.ediv t 86400

/-- Modelled from the spec: the per-day cost aggregation used by
`buildSeries` — the sum of `cost_usd` over the events whose timestamp
truncates to the given day. -/
def sumCosts (events : List CostEvent) (d : ℤ) : ℚ :=
  ((events.filter (fun e => decide (dayOf e.timestamp = d))).map (fun e => e.cost_usd)).sum

/-- Modelled from the spec: `buildSeries(events, from, to)` of the
HistoryAggregator (missing `prophet_model.py`): groups events by UTC
calendar day, sums costs per day, and produces one entry for every
calendar day of the inclusive range, zero-filled; a range with
`from > to` signals `InvalidRangeError`. -/
def buildSeries (events : List CostEvent) (lo hi : ℤ) :
    Except String (List DailyPoint) :=
  if lo > hi then .error "InvalidRangeError"
  else .ok ((List.range ((hi - lo).toNat + 1)).map
    (fun (i : ℕ) => ⟨lo + (i : ℤ), sumCosts events (lo + (i : ℤ))⟩))

/-- The events whose timestamp falls on a day inside the inclusive
range, as restricted by the conservation property. -/
def eventsInRange (events : List CostEvent) (lo hi : ℤ) : List CostEvent :=
  events.filter (fun e => decide (lo ≤ dayOf e.timestamp) && decide (dayOf e.timestamp ≤ hi))

/-- Modelled from the spec: the typed `InsufficientDataError`, carrying
the actual day count and the minimum required so the caller can report
how many more days are needed. -/
structure InsufficientDataError where
  actual : ℕ
  minRequired : ℕ
deriving DecidableEq, Repr

/-- Modelled from the spec: `FittedModel` — the learned trend, weekly
seasonal component and detected changepoints for one provider, plus
the training metadata the forecast rows carry.  The spec leaves the
changepoint-detection tuning open (section 9); the conservative
piecewise-linear trend is modelled as its single-segment (least
squares) instance with an explicit changepoint list. -/
structure FittedModel where
  lastTrainingDate : ℤ
  trendSlope : ℚ
  trendIntercept : ℚ
  weeklySeasonal : List ℚ
  changepoints : List ℤ
  sigma : ℚ
  trainingStart : ℤ
  recordCount : ℕ
deriving DecidableEq, Repr

/-- Weekday index of a calendar day number: the day number modulo 7,
as a list index. -/
def weekdayIdx (d : ℤ) : ℕ := (Int.emod d 7).toNat

/-- Least-squares slope of the series against its 0-based index. -/
def slopeOf (s : List DailyPoint) : ℚ :=
  let nQ : ℚ := s.length
  let sumI : ℚ := (s.enum.map (fun ip => ((ip.1 : ℚ)))).sum
  let sumY : ℚ := (s.enum.map (fun ip => ip.2.cost_usd)).sum
  let sumIY : ℚ := (s.enum.map (fun ip => (ip.1 : ℚ) * ip.2.cost_usd)).sum
  let sumII : ℚ := (s.enum.map (fun ip => (ip.1 : ℚ) * (ip.1 : ℚ))).sum
  let denom : ℚ := nQ * sumII - sumI * sumI
  if denom = 0 then 0 else (nQ * sumIY - sumI * sumY) / denom

/-- Least-squares intercept of the series against its 0-based index. -/
def interceptOf (s : List DailyPoint) : ℚ :=
  let nQ : ℚ := s.length
  let sumI : ℚ := (s.enum.map (fun ip => ((ip.1 : ℚ)))).sum
  let sumY : ℚ := (s.enum.map (fun ip => ip.2.cost_usd)).sum
  if nQ = 0 then 0 else (sumY - slopeOf s * sumI) / nQ

/-- Fitted trend value at a 0-based training index. -/
def trendAt (s : List DailyPoint) (i : ℕ) : ℚ :=
  interceptOf s + slopeOf s * (i : ℚ)

/-- Weekly seasonal component for one weekday: the mean detrended
residual over the training entries falling on that weekday. -/
def seasonalOf (s : List DailyPoint) (k : ℕ) : ℚ :=
  let vals := (s.enum.filter (fun ip => decide (weekdayIdx ip.2.date = k))).map
    (fun ip => ip.2.cost_usd - trendAt s ip.1)
  if vals.length = 0 then 0 else vals.sum / (vals.length : ℚ)

/-- The seven weekly seasonal values, indexed by weekday. -/
def weeklyOf (s : List DailyPoint) : List ℚ :=
  (List.range 7).map (seasonalOf s)

/-- Residuals of the fitted additive model over the training series. -/
def residualsOf (s : List DailyPoint) : List ℚ :=
  s.enum.map (fun ip =>
    ip.2.cost_usd - trendAt s ip.1 - (weeklyOf s).getD (weekdayIdx ip.2.date) 0)

/-- Residual scale of the fit: the mean absolute residual (used as the
uncertainty width; nonnegative by construction). -/
def sigmaOf (s : List DailyPoint) : ℚ :=
  if s.length = 0 then 0
  else ((residualsOf s).map (fun r => |r|)).sum / ((s.length : ℚ))

/-- Modelled from the spec: fitting the additive model
`cost(t) = trend(t) + weekly_seasonal(t) + noise` on a daily series
(the fitting internals of the missing `prophet_model.py`; the spec
treats the exact trend/changepoint method as a tunable). -/
def fitModel (s : List DailyPoint) : FittedModel :=
  { lastTrainingDate := ((s.getLast?).map (fun p => p.date)).getD 0
  , trendSlope := slopeOf s
  , trendIntercept := interceptOf s
  , weeklySeasonal := weeklyOf s
  , changepoints := []
  , sigma := sigmaOf s
  , trainingStart := ((s.head?).map (fun p => p.date)).getD 0
  , recordCount := s.length }

/-- Modelled from the spec: `train()` of the missing forecaster —
refuses a series shorter than the 30-day minimum training window with
an `InsufficientDataError` carrying the actual and required counts,
and otherwise fits the model. -/
def train (s : List DailyPoint) : Except InsufficientDataError FittedModel :=
  if s.length < 30 then .error ⟨s.length, 30⟩ else .ok (fitModel s)

/-- Modelled from the spec: one persisted/emitted `ForecastPoint`
(section 3 data model; bound fields as in the `forecast_results`
schema). -/
structure ForecastPoint where
  forecast_date : ℤ
  predicted_cost_usd : ℚ
  lower_bound_80 : ℚ
  upper_bound_80 : ℚ
  lower_bound_95 : ℚ
  upper_bound_95 : ℚ
deriving DecidableEq, Repr

/-- Two-sided 80 percent interval half-width multiplier. -/
def z80 : ℚ := 1282 / 1000

/-- Two-sided 95 percent interval half-width multiplier. -/
def z95 : ℚ := 196 / 100

/-- Trend projection of a fitted model at a future calendar day: the
training index axis continued past the last training index. -/
def trendForward (m : FittedModel) (d : ℤ) : ℚ :=
  m.trendIntercept + m.trendSlope * ((m.recordCount : ℚ) - 1 + ((d - m.lastTrainingDate : ℤ) : ℚ))

/-- Weekly seasonal value of a fitted model at a calendar day. -/
def seasonalForward (m : FittedModel) (d : ℤ) : ℚ :=
  m.weeklySeasonal.getD (weekdayIdx d) 0

/-- Modelled from the spec: one forecast point at a future day —
`trend + weekly_seasonal`, with the prediction and both lower bounds
floored at 0 (clamping policy), and the interval half-widths derived
from the residual scale at 80 and 95 percent coverage. -/
def mkPoint (m : FittedModel) (d : ℤ) : ForecastPoint :=
  let raw := trendForward m d + seasonalForward m d
  let w80 := z80 * m.sigma
  let w95 := z95 * m.sigma
  { forecast_date := d
  , predicted_cost_usd := max 0 raw
  , lower_bound_80 := max 0 (raw - w80)
  , upper_bound_80 := max 0 (raw + w80)
  , lower_bound_95 := max 0 (raw - w95)
  , upper_bound_95 := max 0 (raw + w95) }

/-- Modelled from the spec: `forecast(model, days)` — projects the
fitted model forward for `days` future calendar days starting the day
after the last training date, in ascending date order. -/
def forecast (m : FittedModel) (days : ℕ) : List ForecastPoint :=
  (List.range days).map (fun (i : ℕ) => mkPoint m (m.lastTrainingDate + 1 + (i : ℤ)))

/-- Modelled from the spec: the per-provider forecast — one
independent fitted model per provider, each projected for the same
number of days. -/
def forecastAll (models : List (String × FittedModel)) (days : ℕ) :
    List (String × List ForecastPoint) :=
  models.map (fun pm => (pm.1, forecast pm.2 days))

/-- One row of the `forecast_results` table (schema columns relevant
to the persistence claims). -/
structure ForecastRow where
  user_id : String
  provider_id : String
  forecast_date : ℤ
  predicted_cost_usd : ℚ
  lower_bound_80 : ℚ
  upper_bound_80 : ℚ
  lower_bound_95 : ℚ
  upper_bound_95 : ℚ
  created_at : ℤ
deriving DecidableEq, Repr

/-- Modelled from the spec: the rows a persisting forecast run writes
for one provider, all sharing one `created_at` write timestamp. -/
def rowsOf (uid pid : String) (m : FittedModel) (days : ℕ) (t : ℤ) : List ForecastRow :=
  (forecast m days).map (fun p =>
    { user_id := uid
    , provider_id := pid
    , forecast_date := p.forecast_date
    , predicted_cost_usd := p.predicted_cost_usd
    , lower_bound_80 := p.lower_bound_80
    , upper_bound_80 := p.upper_bound_80
    , lower_bound_95 := p.lower_bound_95
    , upper_bound_95 := p.upper_bound_95
    , created_at := t })

/-- Append-only write of forecast rows, as the `appendForecasts`
repository operation: new rows only, never in-place updates. -/
def appendForecasts (store rows : List ForecastRow) : List ForecastRow :=
  store ++ rows

/-- Modelled from the spec: `trainAndForecast(..., persist=true)` —
train, then forecast, then append the rows to the store with the
given write timestamp; a training failure short-circuits with no
partial persistence. -/
def trainAndForecast (store : List ForecastRow) (uid pid : String)
    (s : List DailyPoint) (days : ℕ) (t : ℤ) :
    Except InsufficientDataError (List ForecastRow) :=
  (train s).map (fun m => appendForecasts store (rowsOf uid pid m days t))

/-- Scope-and-date filter of the read path: rows of one user and
provider for one forecast date. -/
def scopeFilter (uid pid : String) (d : ℤ) (r : ForecastRow) : Bool :=
  decide (r.user_id = uid) && decide (r.provider_id = pid) && decide (r.forecast_date = d)

/-- Keep whichever of two candidate rows was created later (the SQL
newest-per-date selection step). -/
def pickLatest (acc : Option ForecastRow) (r : ForecastRow) : Option ForecastRow :=
  match acc with
  | none => some r
  | some a => if r.created_at > a.created_at then some r else some a

/-- Modelled from the spec: `getLatestForecasts` restricted to one
date — selects, among the stored rows of the scope with that forecast
date, the one with the most recent `created_at`. -/
def getLatestForecast (store : List ForecastRow) (uid pid : String) (d : ℤ) :
    Option ForecastRow :=
  (store.filter (scopeFilter uid pid d)).foldl pickLatest none

/-- The row a persisting run writes for one forecast date. -/
def rowAt (uid pid : String) (m : FittedModel) (t : ℤ) (d : ℤ) : ForecastRow :=
  { user_id := uid
  , provider_id := pid
  , forecast_date := (mkPoint m d).forecast_date
  , predicted_cost_usd := (mkPoint m d).predicted_cost_usd
  , lower_bound_80 := (mkPoint m d).lower_bound_80
  , upper_bound_80 := (mkPoint m d).upper_bound_80
  , lower_bound_95 := (mkPoint m d).lower_bound_95
  , upper_bound_95 := (mkPoint m d).upper_bound_95
  , created_at := t }

/-- A concrete 30-day training series used by the witnesses: days
0 through 29 with a weekly cost pattern. -/
def s30 : List DailyPoint :=
  (List.range 30).map (fun (i : ℕ) => ⟨(i : ℤ), ((i % 7 : ℕ) : ℚ)⟩)

/-- A concrete 29-day series used by the witnesses. -/
def s29 : List DailyPoint :=
  (List.range 29).map (fun (i : ℕ) => ⟨(i : ℤ), ((i % 7 : ℕ) : ℚ)⟩)

/-- A concrete one-event list used by the witnesses: one event of cost
5 on day 1. -/
def evW : List CostEvent := [⟨"u", "p", 86400, 5, "m"⟩]

/-- The concrete daily series the witnesses obtain from `buildSeries`
on `evW` over days 0 through 2. -/
def sW : List DailyPoint := [⟨0, 0⟩, ⟨1, 5⟩, ⟨2, 0⟩]

/-- The first forecast point of the model fitted on the concrete
30-day witness series. -/
def ptW : ForecastPoint :=
  mkPoint (fitModel s30) ((fitModel s30).lastTrainingDate + 1 + ((0 : ℕ) : ℤ))

/-- The rows the first witness persisting run writes. -/
def rows1W : List ForecastRow := rowsOf "u" "p" (fitModel s30) 1 0

/-- The rows the second witness persisting run writes. -/
def rows2W : List ForecastRow := rowsOf "u" "p" (fitModel s30) 1 1

/-- The store after the first witness persisting run. -/
def store1W : List ForecastRow := appendForecasts [] rows1W

/-- The store after the second witness persisting run. -/
def store2W : List ForecastRow := appendForecasts store1W rows2W

/-- Embedded from `lib/validation.ts` (`validateDateRange`): defaults
the end date to now and the start date to 30 days before the end,
then rejects a start after the end, an end in the future, and a range
longer than one year.  Times are epoch milliseconds; the two
`new Date()` calls of the source are modelled as one `now`. -/
def validateDateRange (startDate endDate : Option ℤ) (now : ℤ) :
    Except String (ℤ × ℤ) :=
  let e := endDate.getD now
  let s := startDate.getD (e - 30 * 86400000)
  if s > e then .error "Start date must be before end date"
  else if e > now then .error "End date cannot be in the future"
  else if e - s > 365 * 86400000 then .error "Date range cannot exceed 1 year"
  else .ok (s, e)

/-- Embedded from `lib/validation.ts` (`ManualCostEntrySchema`): the
fields of one manual cost entry.  String formats checked by the zod
library (`uuid`, ISO datetime) are abstracted as the two predicate
parameters of the validator; integer-typed numeric fields are
embedded as `ℤ` (zod `.int()`); `request_count` is the value after
zod applies its default of 1. -/
structure ManualCostEntry where
  provider_id : String
  timestamp : String
  model_name : String
  cost_usd : ℚ
  tokens_used : Option ℤ
  input_tokens : Option ℤ
  output_tokens : Option ℤ
  request_count : ℤ
deriving DecidableEq, Repr

/-- An optional token count is valid when absent or nonnegative
(zod `.int().nonnegative().optional()`). -/
def optNonneg (x : Option ℤ) : Bool :=
  match x with
  | none => true
  | some v => decide (0 ≤ v)

/-- Embedded from `ManualCostEntrySchema`: conjunction of the zod
field checks — uuid provider, datetime timestamp, model name of
length 1 to 100, `cost_usd` positive and at most 999999, nonnegative
optional token counts, positive request count. -/
def validManualCostEntry (isUuid isDatetime : String → Bool)
    (e : ManualCostEntry) : Bool :=
  isUuid e.provider_id &&
  isDatetime e.timestamp &&
  (decide (1 ≤ e.model_name.length) && decide (e.model_name.length ≤ 100)) &&
  (decide (0 < e.cost_usd) && decide (e.cost_usd ≤ 999999)) &&
  optNonneg e.tokens_used && optNonneg e.input_tokens && optNonneg e.output_tokens &&
  decide (0 < e.request_count)

/-- Embedded from `BulkCostEntrySchema`: a bulk import is valid when
every entry is valid and the entry list has between 1 and 1000
elements (zod `.array(...).min(1).max(1000)`). -/
def validBulkCostEntry (isUuid isDatetime : String → Bool)
    (entries : List ManualCostEntry) : Bool :=
  entries.all (validManualCostEntry isUuid isDatetime) &&
  (decide (1 ≤ entries.length) && decide (entries.length ≤ 1000))

/-- A concrete valid manual cost entry used by the witnesses. -/
def entryW : ManualCostEntry := ⟨"pid", "ts", "gpt", 5, none, none, none, 1⟩

/-- Embedded from the cost-summary route: one row of the
`cost_records_daily` view as consumed by the totals accumulation. -/
structure DailyRecord where
  provider_id : String
  model_name : String
  date : String
  total_cost_usd : ℚ
  total_requests : ℤ
  total_tokens : ℤ
deriving DecidableEq, Repr

/-- An IEEE-754 double restricted to the values the summary
percentages can take: a finite (here rational) number, NaN, or a
signed infinity. -/
inductive JsNum where
  | num (q : ℚ)
  | nan
  | posInf
  | negInf
deriving DecidableEq, Repr

/-- JavaScript division of finite doubles: `0 / 0` is NaN, a nonzero
value over 0 is a signed infinity, otherwise the quotient. -/
def jsDiv (a b : ℚ) : JsNum :=
  if b = 0 then (if a = 0 then .nan else if 0 < a then .posInf else .negInf)
  else .num (a / b)

/-- JavaScript multiplication by a finite constant, propagating NaN
and infinities. -/
def jsMulConst (x : JsNum) (c : ℚ) : JsNum :=
  match x with
  | .num q => .num (q * c)
  | .nan => .nan
  | .posInf => if 0 < c then .posInf else if c < 0 then .negInf else .nan
  | .negInf => if 0 < c then .negInf else if c < 0 then .posInf else .nan

/-- `Number(x.toFixed(2))`: NaN and the infinities map to themselves;
finite values round to two decimals (idealized as exact decimal
rounding — the binary-float digit quirks of `toFixed` do not affect
the NaN claim). -/
def jsToFixed2 (x : JsNum) : JsNum :=
  match x with
  | .num q => .num (((round (q * 100) : ℤ) : ℚ) / 100)
  | other => other

/-- First-occurrence key order of a JavaScript `Map` built by
insertion, as in the summary route's group accumulation. -/
def firstKeys (key : DailyRecord → String) (records : List DailyRecord) : List String :=
  records.foldl (fun acc r => if key r ∈ acc then acc else acc ++ [key r]) []

/-- Embedded from the summary route: `totalCost`, the sum of
`total_cost_usd` over the selected records. -/
def totalCostOf (records : List DailyRecord) : ℚ :=
  (records.map (fun r => r.total_cost_usd)).sum

/-- Embedded from the summary route: the accumulated cost of one
group (provider or model key). -/
def groupCost (key : DailyRecord → String) (records : List DailyRecord) (k : String) : ℚ :=
  ((records.filter (fun r => decide (key r = k))).map (fun r => r.total_cost_usd)).sum

/-- Embedded from the summary route: the `percentage` fields —
`Number(((data.cost / totalCost) * 100).toFixed(2))` for each group
key in insertion order (the subsequent sort and model top-10 slice
only reorder and drop elements). -/
def percentagesBy (key : DailyRecord → String) (records : List DailyRecord) : List JsNum :=
  (firstKeys key records).map (fun k =>
    jsToFixed2 (jsMulConst (jsDiv (groupCost key records k) (totalCostOf records)) 100))

/-- The per-provider `percentage` fields of `byProviderArray`. -/
def providerPercentages (records : List DailyRecord) : List JsNum :=
  percentagesBy (fun r => r.provider_id) records

/-- The per-model `percentage` fields of `byModelArray`. -/
def modelPercentages (records : List DailyRecord) : List JsNum :=
  percentagesBy (fun r => r.model_name) records

/-- A concrete nonempty all-zero-cost record set used by the
witnesses. -/
def recW : List DailyRecord := [⟨"p1", "m1", "2026-01-01", 0, 0, 0⟩]

/-- Unfolding of `sumCosts` on a cons cell. -/
theorem sumCosts_cons (e : CostEvent) (es : List CostEvent) (d : ℤ) :
    sumCosts (e :: es) d =
      (if dayOf e.timestamp = d then e.cost_usd else 0) + sumCosts es d := by
  by_cases h : dayOf e.timestamp = d <;>
    simp [sumCosts, List.filter_cons, h]

/-- Sums of pointwise sums of two maps split. -/
theorem sum_map_add {α : Type} (l : List α) (f g : α → ℚ) :
    (l.map (fun a => f a + g a)).sum = (l.map f).sum + (l.map g).sum := by
  induction l with
  | nil => simp
  | cons a l ih => simp [ih]; ring

/-- Summing the indicator of a single day over a contiguous day range
yields the value exactly when the day lies in the range. -/
theorem sum_indicator_range (n : ℕ) (lo d : ℤ) (c : ℚ) :
    ((List.range n).map (fun (i : ℕ) => if lo + (i : ℤ) = d then c else 0)).sum =
      if lo ≤ d ∧ d < lo + (n : ℤ) then c else 0 := by
  induction n with
  | zero =>
    simp only [List.range_zero, List.map_nil, List.sum_nil]
    split
    · omega
    · rfl
  | succ n ih =>
    rw [List.range_succ, List.map_append, List.sum_append, ih]
    simp only [List.map_cons, List.map_nil, List.sum_cons, List.sum_nil]
    by_cases h1 : lo + (n : ℤ) = d
    · have h2 : ¬ (lo ≤ d ∧ d < lo + (n : ℤ)) := by omega
      have h3 : lo ≤ d ∧ d < lo + ((n : ℕ) + 1 : ℤ) := by omega
      rw [if_neg h2, if_pos h1]
      push_cast
      rw [if_pos (by omega)]
      ring
    · rw [if_neg h1]
      by_cases h2 : lo ≤ d ∧ d < lo + (n : ℤ)
      · have h3 : lo ≤ d ∧ d < lo + ((n : ℕ) + 1 : ℤ) := by omega
        rw [if_pos h2]
        push_cast
        rw [if_pos (by omega)]
        ring
      · have h3 : ¬ (lo ≤ d ∧ d < lo + (((n : ℕ) : ℤ) + 1)) := by omega
        rw [if_neg h2]
        push_cast
        rw [if_neg (by omega)]
        ring

/-- Conservation over a half-open day range: the summed per-day totals
over `lo, lo+1, …, lo+n-1` equal the total cost of the events whose
day falls in that range. -/
theorem conservation_aux (events : List CostEvent) (lo : ℤ) (n : ℕ) :
    ((List.range n).map (fun (i : ℕ) => sumCosts events (lo + (i : ℤ)))).sum =
      ((events.filter (fun e =>
          decide (lo ≤ dayOf e.timestamp) &&
          decide (dayOf e.timestamp < lo + (n : ℤ)))).map (fun e => e.cost_usd)).sum := by
  induction events with
  | nil => simp [sumCosts]
  | cons e es ih =>
    have hsplit :
        ((List.range n).map (fun (i : ℕ) => sumCosts (e :: es) (lo + (i : ℤ)))).sum =
          ((List.range n).map
            (fun (i : ℕ) => if dayOf e.timestamp = lo + (i : ℤ) then e.cost_usd else 0)).sum +
          ((List.range n).map (fun (i : ℕ) => sumCosts es (lo + (i : ℤ)))).sum := by
      calc ((List.range n).map (fun (i : ℕ) => sumCosts (e :: es) (lo + (i : ℤ)))).sum
          = ((List.range n).map (fun (i : ℕ) =>
              (if dayOf e.timestamp = lo + (i : ℤ) then e.cost_usd else 0) +
              sumCosts es (lo + (i : ℤ)))).sum := by
            apply congrArg
            apply List.map_congr_left
            intro i _
            rw [sumCosts_cons]
        _ = _ := sum_map_add _ _ _
    rw [hsplit, ih]
    have hind :
        ((List.range n).map
          (fun (i : ℕ) => if dayOf e.timestamp = lo + (i : ℤ) then e.cost_usd else 0)).sum =
        if lo ≤ dayOf e.timestamp ∧ dayOf e.timestamp < lo + (n : ℤ)
          then e.cost_usd else 0 := by
      calc ((List.range n).map
            (fun (i : ℕ) => if dayOf e.timestamp = lo + (i : ℤ) then e.cost_usd else 0)).sum
          = ((List.range n).map
            (fun (i : ℕ) => if lo + (i : ℤ) = dayOf e.timestamp then e.cost_usd else 0)).sum := by
            apply congrArg
            apply List.map_congr_left
            intro i _
            by_cases h : dayOf e.timestamp = lo + (i : ℤ)
            · rw [if_pos h, if_pos h.symm]
            · rw [if_neg h, if_neg (fun hh => h hh.symm)]
        _ = _ := sum_indicator_range n lo (dayOf e.timestamp) e.cost_usd
    rw [hind]
    by_cases h : lo ≤ dayOf e.timestamp ∧ dayOf e.timestamp < lo + (n : ℤ)
    · rw [if_pos h]
      rw [List.filter_cons_of_pos (by simp [h.1, h.2])]
      simp
    · rw [if_neg h]
      rw [List.filter_cons_of_neg (by simp; omega)]
      simp

/-- A day with no events contributes a zero cost. -/
theorem sumCosts_eq_zero (events : List CostEvent) (d : ℤ)
    (h : ∀ e ∈ events, dayOf e.timestamp ≠ d) : sumCosts events d = 0 := by
  unfold sumCosts
  rw [List.filter_eq_nil.mpr (by intro e he; simpa using h e he)]
  rfl

/-- C3: for every event list and valid range, `buildSeries` returns a
series of exactly `(to - from).days + 1` entries, one per calendar day
of the inclusive range, with zero cost on event-less days and dates
strictly ascending by one day per step. -/
theorem buildSeries_gap_filling (events : List CostEvent) (lo hi : ℤ) (h : lo ≤ hi) :
    ∃ s, buildSeries events lo hi = .ok s ∧
      s.length = (hi - lo).toNat + 1 ∧
      (∀ i : ℕ, i < s.length →
        s.get? i = some ⟨lo + (i : ℤ), sumCosts events (lo + (i : ℤ))⟩) ∧
      (∀ i : ℕ, i < s.length → (∀ e ∈ events, dayOf e.timestamp ≠ lo + (i : ℤ)) →
        s.get? i = some ⟨lo + (i : ℤ), 0⟩) ∧
      (∀ (i : ℕ) (p q : DailyPoint),
        s.get? i = some p → s.get? (i + 1) = some q → q.date = p.date + 1) := by
  have hne : ¬ lo > hi := not_lt.mpr h
  refine ⟨_, by rw [buildSeries, if_neg hne], ?_, ?_, ?_, ?_⟩
  · simp
  · intro i hilen
    rw [List.length_map, List.length_range] at hilen
    rw [List.get?_map, List.get?_range hilen]
    rfl
  · intro i hilen hz
    rw [List.length_map, List.length_range] at hilen
    rw [List.get?_map, List.get?_range hilen]
    simp [sumCosts_eq_zero events _ hz]
  · intro i p q hp hq
    by_cases hb : i + 1 < (hi - lo).toNat + 1
    · rw [List.get?_map, List.get?_range hb] at hq
      rw [List.get?_map, List.get?_range (by omega)] at hp
      have hp2 := Option.some.inj hp
      have hq2 := Option.some.inj hq
      rw [← hp2, ← hq2]
      push_cast
      ring
    · rw [List.get?_map, List.get?_eq_none.mpr (by simpa using hb)] at hq
      exact absurd hq (by simp)

/-- C4: conservation — the summed cost of the series `buildSeries`
returns equals the summed cost of the input events whose day falls in
the inclusive range. -/
theorem buildSeries_conservation (events : List CostEvent) (lo hi : ℤ) (h : lo ≤ hi)
    (s : List DailyPoint) (hs : buildSeries events lo hi = .ok s) :
    (s.map (fun p => p.cost_usd)).sum =
      ((eventsInRange events lo hi).map (fun e => e.cost_usd)).sum := by
  rw [buildSeries, if_neg (not_lt.mpr h)] at hs
  injection hs with hs
  subst hs
  rw [List.map_map]
  have hfun : ((fun p : DailyPoint => p.cost_usd) ∘
      (fun (i : ℕ) => (⟨lo + (i : ℤ), sumCosts events (lo + (i : ℤ))⟩ : DailyPoint))) =
      (fun (i : ℕ) => sumCosts events (lo + (i : ℤ))) := rfl
  rw [hfun, conservation_aux]
  unfold eventsInRange
  apply congrArg
  apply congrArg
  apply List.filter_congr
  intro e _
  congr 1
  exact decide_eq_decide.mpr (by omega)

/-- Witness for C3 at the concrete input `evW`, days 0 through 2. -/
theorem buildSeries_gap_filling_witness :
    (0 : ℤ) ≤ 2 ∧
    ∃ s, buildSeries evW 0 2 = .ok s ∧
      s.length = ((2 : ℤ) - 0).toNat + 1 ∧
      (∀ i : ℕ, i < s.length →
        s.get? i = some ⟨(0 : ℤ) + (i : ℤ), sumCosts evW ((0 : ℤ) + (i : ℤ))⟩) ∧
      (∀ i : ℕ, i < s.length → (∀ e ∈ evW, dayOf e.timestamp ≠ (0 : ℤ) + (i : ℤ)) →
        s.get? i = some ⟨(0 : ℤ) + (i : ℤ), 0⟩) ∧
      (∀ (i : ℕ) (p q : DailyPoint),
        s.get? i = some p → s.get? (i + 1) = some q → q.date = p.date + 1) :=
  ⟨by decide, buildSeries_gap_filling evW 0 2 (by decide)⟩

/-- Witness for C4 at the concrete input `evW`, days 0 through 2: the
series totals 5, matching the single in-range event. -/
theorem buildSeries_conservation_witness :
    (sW.map (fun p => p.cost_usd)).sum =
      ((eventsInRange evW 0 2).map (fun e => e.cost_usd)).sum :=
  buildSeries_conservation evW 0 2 (by decide) sW
    (by
      rw [buildSeries, if_neg (by decide)]
      congr 1
      simp [List.range_succ, sumCosts, evW, dayOf, sW]
      norm_num)

/-- C2: the minimum-data gate — `train` fails with an
`InsufficientDataError` carrying the actual day count and the minimum
30 exactly when the series is shorter than 30 days, and succeeds from
30 days on. -/
theorem train_min_data_gate (s : List DailyPoint) :
    (s.length < 30 → train s = .error ⟨s.length, 30⟩) ∧
    (30 ≤ s.length → train s = .ok (fitModel s)) := by
  constructor
  · intro h
    unfold train
    rw [if_pos h]
  · intro h
    unfold train
    rw [if_neg (by omega)]

/-- Witness for C2: a 29-day series fails carrying counts 29 and 30; a
30-day series succeeds. -/
theorem train_min_data_gate_witness :
    s29.length = 29 ∧ s30.length = 30 ∧
    train s29 = .error ⟨29, 30⟩ ∧ train s30 = .ok (fitModel s30) := by
  refine ⟨by simp [s29], by simp [s30], ?_, ?_⟩
  · exact (train_min_data_gate s29).1 (by simp [s29])
  · exact (train_min_data_gate s30).2 (by simp [s30])

/-- The residual scale of a fit is nonnegative. -/
theorem sigmaOf_nonneg (s : List DailyPoint) : 0 ≤ sigmaOf s := by
  unfold sigmaOf
  split
  · exact le_refl 0
  · apply div_nonneg
    · apply List.sum_nonneg
      intro x hx
      obtain ⟨r, _, hr⟩ := List.mem_map.mp hx
      rw [← hr]
      exact abs_nonneg r
    · exact_mod_cast Nat.zero_le s.length

/-- C1: bound ordering — every forecast point of a trained model
satisfies `0 ≤ lower_bound_95 ≤ lower_bound_80 ≤ predicted_cost_usd ≤
upper_bound_80 ≤ upper_bound_95` (prediction and lower bounds clamped
at 0, the 95 percent band containing the 80 percent band). -/
theorem forecast_bound_ordering (s : List DailyPoint) (m : FittedModel)
    (hm : train s = .ok m) (days : ℕ) (pt : ForecastPoint)
    (hpt : pt ∈ forecast m days) :
    0 ≤ pt.lower_bound_95 ∧ pt.lower_bound_95 ≤ pt.lower_bound_80 ∧
    pt.lower_bound_80 ≤ pt.predicted_cost_usd ∧
    pt.predicted_cost_usd ≤ pt.upper_bound_80 ∧
    pt.upper_bound_80 ≤ pt.upper_bound_95 := by
  have hsig : 0 ≤ m.sigma := by
    unfold train at hm
    split at hm
    · exact absurd hm (by simp)
    · injection hm with hm
      rw [← hm]
      exact sigmaOf_nonneg s
  obtain ⟨i, _, hpt2⟩ := List.mem_map.mp hpt
  rw [← hpt2]
  dsimp only [mkPoint]
  have hw80 : 0 ≤ z80 * m.sigma := mul_nonneg (by norm_num [z80]) hsig
  have hw : z80 * m.sigma ≤ z95 * m.sigma :=
    mul_le_mul_of_nonneg_right (by norm_num [z80, z95]) hsig
  refine ⟨le_max_left 0 _, ?_, ?_, ?_, ?_⟩
  · exact max_le_max (le_refl 0) (by linarith)
  · exact max_le_max (le_refl 0) (by linarith)
  · exact max_le_max (le_refl 0) (by linarith)
  · exact max_le_max (le_refl 0) (by linarith)

/-- The 30-day witness series trains successfully. -/
theorem train_s30_ok : train s30 = .ok (fitModel s30) := by
  unfold train
  rw [if_neg (by simp [s30])]

/-- Witness for C1: the first forecast point of the model trained on
the 30-day witness series satisfies the full bound ordering. -/
theorem forecast_bound_ordering_witness :
    0 ≤ ptW.lower_bound_95 ∧ ptW.lower_bound_95 ≤ ptW.lower_bound_80 ∧
    ptW.lower_bound_80 ≤ ptW.predicted_cost_usd ∧
    ptW.predicted_cost_usd ≤ ptW.upper_bound_80 ∧
    ptW.upper_bound_80 ≤ ptW.upper_bound_95 :=
  forecast_bound_ordering s30 (fitModel s30) train_s30_ok 1 ptW
    (by show ptW ∈ [ptW]; exact List.mem_singleton.mpr rfl)

/-- C5: horizon correctness — each provider entry of the 30-day
forecast has exactly 30 points, whose dates are the 30 consecutive
calendar days following the last training date, in ascending order. -/
theorem forecast_horizon (models : List (String × FittedModel)) (p : String)
    (pts : List ForecastPoint) (h : (p, pts) ∈ forecastAll models 30) :
    pts.length = 30 ∧
    ∃ m, (p, m) ∈ models ∧
      (∀ i : ℕ, i < 30 →
        (pts.get? i).map (fun q => q.forecast_date) =
          some (m.lastTrainingDate + 1 + (i : ℤ))) ∧
      (∀ (i : ℕ) (q r : ForecastPoint),
        pts.get? i = some q → pts.get? (i + 1) = some r →
        r.forecast_date = q.forecast_date + 1) := by
  obtain ⟨pm, hpm, heq⟩ := List.mem_map.mp h
  have he1 : pm.1 = p := congrArg Prod.fst heq
  have he2 : forecast pm.2 30 = pts := congrArg Prod.snd heq
  subst he2
  refine ⟨by simp [forecast], pm.2, by rw [← he1]; exact hpm, ?_, ?_⟩
  · intro i hi
    unfold forecast
    rw [List.get?_map, List.get?_range hi]
    rfl
  · intro i q r hq hr
    by_cases hb : i + 1 < 30
    · unfold forecast at hq hr
      rw [List.get?_map, List.get?_range hb] at hr
      rw [List.get?_map, List.get?_range (by omega)] at hq
      rw [← Option.some.inj hq, ← Option.some.inj hr]
      dsimp only [mkPoint]
      push_cast
      ring
    · unfold forecast at hr
      rw [List.get?_map, List.get?_eq_none.mpr (by simpa using hb)] at hr
      exact absurd hr (by simp)

/-- Witness for C5: the single-provider model list fitted on the
30-day witness series. -/
theorem forecast_horizon_witness :
    (forecast (fitModel s30) 30).length = 30 ∧
    ∃ m, ("prov", m) ∈ [("prov", fitModel s30)] ∧
      (∀ i : ℕ, i < 30 →
        ((forecast (fitModel s30) 30).get? i).map (fun q => q.forecast_date) =
          some (m.lastTrainingDate + 1 + (i : ℤ))) ∧
      (∀ (i : ℕ) (q r : ForecastPoint),
        (forecast (fitModel s30) 30).get? i = some q →
        (forecast (fitModel s30) 30).get? (i + 1) = some r →
        r.forecast_date = q.forecast_date + 1) :=
  forecast_horizon [("prov", fitModel s30)] "prov" (forecast (fitModel s30) 30)
    (by show _ ∈ [("prov", forecast (fitModel s30) 30)]; exact List.mem_singleton.mpr rfl)

/-- C8: determinism — `forecast` is a pure function of the fitted
model and the horizon: two calls on equal models produce identical
sequences, with the predicted cost and all four bounds equal run to
run at every index. -/
theorem forecast_deterministic (m1 m2 : FittedModel) (days : ℕ) (h : m1 = m2) :
    forecast m1 days = forecast m2 days ∧
    ∀ i : ℕ,
      ((forecast m1 days).get? i).map (fun q => q.predicted_cost_usd) =
        ((forecast m2 days).get? i).map (fun q => q.predicted_cost_usd) ∧
      ((forecast m1 days).get? i).map (fun q => q.lower_bound_80) =
        ((forecast m2 days).get? i).map (fun q => q.lower_bound_80) ∧
      ((forecast m1 days).get? i).map (fun q => q.upper_bound_80) =
        ((forecast m2 days).get? i).map (fun q => q.upper_bound_80) ∧
      ((forecast m1 days).get? i).map (fun q => q.lower_bound_95) =
        ((forecast m2 days).get? i).map (fun q => q.lower_bound_95) ∧
      ((forecast m1 days).get? i).map (fun q => q.upper_bound_95) =
        ((forecast m2 days).get? i).map (fun q => q.upper_bound_95) := by
  subst h
  exact ⟨rfl, fun i => ⟨rfl, rfl, rfl, rfl, rfl⟩⟩

/-- Witness for C8 on the model fitted from the 30-day witness
series. -/
theorem forecast_deterministic_witness :
    forecast (fitModel s30) 30 = forecast (fitModel s30) 30 ∧
    ∀ i : ℕ,
      ((forecast (fitModel s30) 30).get? i).map (fun q => q.predicted_cost_usd) =
        ((forecast (fitModel s30) 30).get? i).map (fun q => q.predicted_cost_usd) ∧
      ((forecast (fitModel s30) 30).get? i).map (fun q => q.lower_bound_80) =
        ((forecast (fitModel s30) 30).get? i).map (fun q => q.lower_bound_80) ∧
      ((forecast (fitModel s30) 30).get? i).map (fun q => q.upper_bound_80) =
        ((forecast (fitModel s30) 30).get? i).map (fun q => q.upper_bound_80) ∧
      ((forecast (fitModel s30) 30).get? i).map (fun q => q.lower_bound_95) =
        ((forecast (fitModel s30) 30).get? i).map (fun q => q.lower_bound_95) ∧
      ((forecast (fitModel s30) 30).get? i).map (fun q => q.upper_bound_95) =
        ((forecast (fitModel s30) 30).get? i).map (fun q => q.upper_bound_95) :=
  forecast_deterministic (fitModel s30) (fitModel s30) 30 rfl

/-- The persisted rows of one run unfold to one row per future day. -/
theorem rowsOf_eq (uid pid : String) (m : FittedModel) (days : ℕ) (t : ℤ) :
    rowsOf uid pid m days t =
      (List.range days).map
        (fun (i : ℕ) => rowAt uid pid m t (m.lastTrainingDate + 1 + (i : ℤ))) := by
  unfold rowsOf forecast
  rw [List.map_map]
  rfl

/-- Every row of one persisting run carries that run's write
timestamp. -/
theorem rowsOf_created (uid pid : String) (m : FittedModel) (days : ℕ) (t : ℤ) :
    ∀ r ∈ rowsOf uid pid m days t, r.created_at = t := by
  intro r hr
  obtain ⟨p, _, hp⟩ := List.mem_map.mp hr
  rw [← hp]

/-- Filtering a mapped list is mapping the filtered preimages. -/
theorem filterOfMap {α β : Type} (g : α → β) (p : β → Bool) :
    ∀ l : List α, (l.map g).filter p = (l.filter (fun a => p (g a))).map g := by
  intro l
  induction l with
  | nil => rfl
  | cons a l ih =>
    by_cases h : p (g a)
    · simp [h, ih]
    · simp [h, ih]

/-- Filtering a range by a predicate that holds exactly at one index
below the bound yields that single index. -/
theorem range_filter_single (n j : ℕ) (hj : j < n) (p : ℕ → Bool)
    (hp : ∀ i : ℕ, p i = true ↔ i = j) :
    (List.range n).filter p = [j] := by
  induction n with
  | zero => omega
  | succ n ih =>
    rw [List.range_succ, List.filter_append]
    by_cases hjn : j = n
    · subst hjn
      rw [List.filter_eq_nil_iff.mpr (by
        intro i hi
        rw [List.mem_range] at hi
        simp only [hp i]
        omega)]
      simp [hp j]
    · rw [ih (by omega)]
      have : p n = false := by
        rw [Bool.eq_false_iff]
        intro hc
        exact hjn ((hp n).mp hc).symm
      simp [this]

/-- A later-bounded fold of `pickLatest` stays below the bound. -/
theorem fold_pickLatest_bound (l : List ForecastRow) :
    ∀ (acc : Option ForecastRow) (c : ℤ),
      (∀ r ∈ l, r.created_at < c) →
      (∀ a, acc = some a → a.created_at < c) →
      ∀ b, l.foldl pickLatest acc = some b → b.created_at < c := by
  induction l with
  | nil =>
    intro acc c _ hacc b hb
    exact hacc b hb
  | cons r l ih =>
    intro acc c hl hacc b hb
    rw [List.foldl_cons] at hb
    refine ih (pickLatest acc r) c (fun x hx => hl x (List.mem_cons_of_mem r hx)) ?_ b hb
    intro a ha
    cases acc with
    | none =>
      simp only [pickLatest] at ha
      rw [← Option.some.inj ha]
      exact hl r (List.mem_cons_self r l)
    | some x =>
      simp only [pickLatest] at ha
      by_cases hcmp : r.created_at > x.created_at
      · rw [if_pos hcmp] at ha
        rw [← Option.some.inj ha]
        exact hl r (List.mem_cons_self r l)
      · rw [if_neg hcmp] at ha
        rw [← Option.some.inj ha]
        exact hacc x rfl

/-- Folding `pickLatest` over earlier rows followed by two strictly
newer rows selects the newest. -/
theorem fold_pickLatest_last (S : List ForecastRow) (r1 r2 : ForecastRow)
    (h1 : ∀ r ∈ S, r.created_at < r1.created_at)
    (h2 : r1.created_at < r2.created_at) :
    (S ++ [r1] ++ [r2]).foldl pickLatest none = some r2 := by
  rw [List.foldl_append, List.foldl_append]
  have hmid : List.foldl pickLatest (S.foldl pickLatest none) [r1] = some r1 := by
    rcases hacc : S.foldl pickLatest none with _ | a
    · simp [pickLatest]
    · have hlt := fold_pickLatest_bound S none r1.created_at h1 (by simp) a hacc
      simp only [List.foldl_cons, List.foldl_nil, pickLatest]
      rw [if_pos (show r1.created_at > a.created_at from hlt)]
  rw [hmid]
  simp only [List.foldl_cons, List.foldl_nil, pickLatest]
  rw [if_pos (show r2.created_at > r1.created_at from h2)]

/-- One persisting run's rows, filtered to one in-horizon forecast
date of its own scope, are exactly that date's single row. -/
theorem rowsOf_filter_scope (uid pid : String) (m : FittedModel) (days : ℕ)
    (t : ℤ) (j : ℕ) (hj : j < days) :
    (rowsOf uid pid m days t).filter
        (scopeFilter uid pid (m.lastTrainingDate + 1 + (j : ℤ))) =
      [rowAt uid pid m t (m.lastTrainingDate + 1 + (j : ℤ))] := by
  rw [rowsOf_eq, filterOfMap]
  rw [range_filter_single days j hj _ (by
    intro i
    unfold scopeFilter rowAt
    simp only [Bool.and_eq_true, decide_eq_true_eq]
    constructor
    · intro h
      have := h.2
      dsimp only [mkPoint] at this
      omega
    · intro h
      subst h
      refine ⟨⟨trivial, trivial⟩, ?_⟩
      dsimp only [mkPoint])]
  rfl

/-- C6: append-only persistence — two persisting runs for the same
scope leave both full row sets in the store, distinguished by their
write timestamps, and the per-date latest-row read path returns the
second run's row for every forecast date of the horizon. -/
theorem append_only_persistence
    (store0 : List ForecastRow) (uid pid : String) (s : List DailyPoint)
    (days : ℕ) (t1 t2 : ℤ) (m : FittedModel)
    (hm : train s = .ok m)
    (ht : t1 < t2)
    (hstore : ∀ r ∈ store0, r.created_at < t1)
    (store1 store2 : List ForecastRow)
    (h1 : trainAndForecast store0 uid pid s days t1 = .ok store1)
    (h2 : trainAndForecast store1 uid pid s days t2 = .ok store2) :
    store2 = store0 ++ rowsOf uid pid m days t1 ++ rowsOf uid pid m days t2 ∧
    (∀ r ∈ rowsOf uid pid m days t1, r ∈ store2 ∧ r.created_at = t1) ∧
    (∀ r ∈ rowsOf uid pid m days t2, r ∈ store2 ∧ r.created_at = t2) ∧
    (∀ j : ℕ, j < days →
      getLatestForecast store2 uid pid (m.lastTrainingDate + 1 + (j : ℤ)) =
        some (rowAt uid pid m t2 (m.lastTrainingDate + 1 + (j : ℤ)))) := by
  have h1e : store1 = appendForecasts store0 (rowsOf uid pid m days t1) := by
    unfold trainAndForecast at h1
    rw [hm] at h1
    exact (Option.some.inj (congrArg Except.toOption h1)).symm
  have h2e : store2 = appendForecasts store1 (rowsOf uid pid m days t2) := by
    unfold trainAndForecast at h2
    rw [hm] at h2
    exact (Option.some.inj (congrArg Except.toOption h2)).symm
  subst h1e
  subst h2e
  unfold appendForecasts
  refine ⟨rfl, ?_, ?_, ?_⟩
  · intro r hr
    exact ⟨by simp [hr], rowsOf_created uid pid m days t1 r hr⟩
  · intro r hr
    exact ⟨by simp [hr], rowsOf_created uid pid m days t2 r hr⟩
  · intro j hj
    unfold getLatestForecast
    rw [List.filter_append, List.filter_append]
    rw [rowsOf_filter_scope uid pid m days t1 j hj,
        rowsOf_filter_scope uid pid m days t2 j hj]
    apply fold_pickLatest_last
    · intro r hr
      have hr0 : r ∈ store0 := (List.mem_filter.mp hr).1
      exact hstore r hr0
    · exact ht

/-- Witness for C6: two one-day persisting runs at write times 0 and
1 on the 30-day witness series. -/
theorem append_only_persistence_witness :
    store2W = [] ++ rows1W ++ rows2W ∧
    (∀ r ∈ rows1W, r ∈ store2W ∧ r.created_at = 0) ∧
    (∀ r ∈ rows2W, r ∈ store2W ∧ r.created_at = 1) ∧
    (∀ j : ℕ, j < 1 →
      getLatestForecast store2W "u" "p" ((fitModel s30).lastTrainingDate + 1 + (j : ℤ)) =
        some (rowAt "u" "p" (fitModel s30) 1
          ((fitModel s30).lastTrainingDate + 1 + (j : ℤ)))) :=
  append_only_persistence [] "u" "p" s30 1 0 1 (fitModel s30) train_s30_ok
    (by decide) (by simp) store1W store2W
    (by unfold trainAndForecast store1W rows1W; rw [train_s30_ok]; rfl)
    (by unfold trainAndForecast store2W store1W rows1W rows2W; rw [train_s30_ok]; rfl)

/-- Counterexample for C7: a range with `from ≤ to` (both in bounds,
start at epoch, end about 463 days later, now equal to the end) is
still rejected — the validator has error conditions beyond
`from > to`. -/
theorem validateDateRange_counterexample :
    (0 : ℤ) ≤ 40000000000000 ∧
    validateDateRange (some 0) (some 40000000000000) 40000000000000 =
      .error "Date range cannot exceed 1 year" := by
  constructor
  · decide
  · rfl

/-- C7 (amended): the date-range validation signals an error exactly
when the (defaulted) start is after the (defaulted) end, or the end
is in the future, or the range exceeds 365 days — in that order of
precedence — and succeeds otherwise. -/
theorem validateDateRange_spec (sd ed : Option ℤ) (now : ℤ) :
    (sd.getD (ed.getD now - 30 * 86400000) > ed.getD now →
      validateDateRange sd ed now = .error "Start date must be before end date") ∧
    (sd.getD (ed.getD now - 30 * 86400000) ≤ ed.getD now → now < ed.getD now →
      validateDateRange sd ed now = .error "End date cannot be in the future") ∧
    (sd.getD (ed.getD now - 30 * 86400000) ≤ ed.getD now → ed.getD now ≤ now →
      365 * 86400000 < ed.getD now - sd.getD (ed.getD now - 30 * 86400000) →
      validateDateRange sd ed now = .error "Date range cannot exceed 1 year") ∧
    (sd.getD (ed.getD now - 30 * 86400000) ≤ ed.getD now → ed.getD now ≤ now →
      ed.getD now - sd.getD (ed.getD now - 30 * 86400000) ≤ 365 * 86400000 →
      validateDateRange sd ed now =
        .ok (sd.getD (ed.getD now - 30 * 86400000), ed.getD now)) := by
  refine ⟨?_, ?_, ?_, ?_⟩ <;> unfold validateDateRange
  · intro h
    rw [if_pos h]
  · intro h1 h2
    rw [if_neg (by omega), if_pos (by omega)]
  · intro h1 h2 h3
    rw [if_neg (by omega), if_neg (by omega), if_pos (by omega)]
  · intro h1 h2 h3
    rw [if_neg (by omega), if_neg (by omega), if_neg (by omega)]

/-- Witness for C7 (amended): a well-ordered, past, short range is
accepted. -/
theorem validateDateRange_spec_witness :
    validateDateRange (some 0) (some 86400000) 86400000 = .ok (0, 86400000) :=
  (validateDateRange_spec (some 0) (some 86400000) 86400000).2.2.2
    (by decide) (by decide) (by decide)

/-- C9: when every other field check passes, the manual-entry
validator accepts exactly the entries with `0 < cost_usd ≤ 999999`
(so a zero-cost entry is rejected), and an accepted bulk import has
between 1 and 1000 entries. -/
theorem manual_cost_entry_validation (isUuid isDatetime : String → Bool)
    (e : ManualCostEntry)
    (hu : isUuid e.provider_id = true) (ht : isDatetime e.timestamp = true)
    (hm1 : 1 ≤ e.model_name.length) (hm2 : e.model_name.length ≤ 100)
    (htk : optNonneg e.tokens_used = true) (hti : optNonneg e.input_tokens = true)
    (hto : optNonneg e.output_tokens = true) (hrc : 0 < e.request_count) :
    (validManualCostEntry isUuid isDatetime e = true ↔
      0 < e.cost_usd ∧ e.cost_usd ≤ 999999) ∧
    (e.cost_usd = 0 → validManualCostEntry isUuid isDatetime e = false) ∧
    (∀ entries : List ManualCostEntry,
      validBulkCostEntry isUuid isDatetime entries = true →
      1 ≤ entries.length ∧ entries.length ≤ 1000) := by
  have hiff : validManualCostEntry isUuid isDatetime e = true ↔
      0 < e.cost_usd ∧ e.cost_usd ≤ 999999 := by
    unfold validManualCostEntry
    simp [hu, ht, hm1, hm2, htk, hti, hto, hrc]
  refine ⟨hiff, ?_, ?_⟩
  · intro h0
    cases hval : validManualCostEntry isUuid isDatetime e with
    | false => rfl
    | true =>
      have := (hiff.mp hval).1
      rw [h0] at this
      exact absurd this (lt_irrefl 0)
  · intro entries h
    unfold validBulkCostEntry at h
    simp only [Bool.and_eq_true, decide_eq_true_eq] at h
    exact h.2

/-- Witness for C9 at a concrete entry and trivial format checkers. -/
theorem manual_cost_entry_validation_witness :
    (validManualCostEntry (fun _ => true) (fun _ => true) entryW = true ↔
      0 < entryW.cost_usd ∧ entryW.cost_usd ≤ 999999) ∧
    (entryW.cost_usd = 0 →
      validManualCostEntry (fun _ => true) (fun _ => true) entryW = false) ∧
    (∀ entries : List ManualCostEntry,
      validBulkCostEntry (fun _ => true) (fun _ => true) entries = true →
      1 ≤ entries.length ∧ entries.length ≤ 1000) :=
  manual_cost_entry_validation (fun _ => true) (fun _ => true) entryW
    rfl rfl (by decide) (by decide) rfl rfl rfl (by decide)

/-- A nonempty record list yields a nonempty first-occurrence key
list. -/
theorem firstKeys_ne_nil (key : DailyRecord → String) (records : List DailyRecord)
    (h : records ≠ []) : firstKeys key records ≠ [] := by
  have haux : ∀ (l : List DailyRecord) (acc : List String), acc ≠ [] →
      l.foldl (fun acc r => if key r ∈ acc then acc else acc ++ [key r]) acc ≠ [] := by
    intro l
    induction l with
    | nil => intro acc hacc; exact hacc
    | cons r l ih =>
      intro acc hacc
      rw [List.foldl_cons]
      by_cases hmem : key r ∈ acc
      · rw [if_pos hmem]
        exact ih acc hacc
      · rw [if_neg hmem]
        exact ih (acc ++ [key r]) (by simp)
  cases records with
  | nil => exact absurd rfl h
  | cons r rs =>
    unfold firstKeys
    rw [List.foldl_cons]
    exact haux rs _ (by simp)

/-- The total cost of an all-zero record set is zero. -/
theorem totalCostOf_zero (records : List DailyRecord)
    (hzero : ∀ r ∈ records, r.total_cost_usd = 0) : totalCostOf records = 0 := by
  unfold totalCostOf
  apply List.sum_eq_zero
  intro x hx
  obtain ⟨r, hr, hrx⟩ := List.mem_map.mp hx
  rw [← hrx]
  exact hzero r hr

/-- The group cost of any key over an all-zero record set is zero. -/
theorem groupCost_zero (key : DailyRecord → String) (records : List DailyRecord)
    (hzero : ∀ r ∈ records, r.total_cost_usd = 0) (k : String) :
    groupCost key records k = 0 := by
  unfold groupCost
  apply List.sum_eq_zero
  intro x hx
  obtain ⟨r, hr, hrx⟩ := List.mem_map.mp hx
  rw [← hrx]
  exact hzero r (List.mem_filter.mp hr).1

/-- C10: on any nonempty record set whose costs are all zero, the
unguarded `cost / totalCost * 100` computation makes every
per-provider and per-model percentage NaN (0/0), not a number. -/
theorem summary_percentages_nan (records : List DailyRecord)
    (hne : records ≠ [])
    (hzero : ∀ r ∈ records, r.total_cost_usd = 0) :
    providerPercentages records ≠ [] ∧
    (∀ x ∈ providerPercentages records, x = JsNum.nan) ∧
    modelPercentages records ≠ [] ∧
    (∀ x ∈ modelPercentages records, x = JsNum.nan) := by
  have hval : ∀ (key : DailyRecord → String) (k : String),
      jsToFixed2 (jsMulConst (jsDiv (groupCost key records k) (totalCostOf records)) 100) =
        JsNum.nan := by
    intro key k
    rw [groupCost_zero key records hzero k, totalCostOf_zero records hzero]
    rfl
  have hmem : ∀ (key : DailyRecord → String), ∀ x ∈ percentagesBy key records, x = JsNum.nan := by
    intro key x hx
    obtain ⟨k, _, hk⟩ := List.mem_map.mp hx
    rw [← hk]
    exact hval key k
  have hnil : ∀ (key : DailyRecord → String), percentagesBy key records ≠ [] := by
    intro key hcontra
    unfold percentagesBy at hcontra
    exact firstKeys_ne_nil key records hne (List.map_eq_nil.mp hcontra)
  exact ⟨hnil _, hmem _, hnil _, hmem _⟩

/-- Witness for C10 at a concrete one-record all-zero set. -/
theorem summary_percentages_nan_witness :
    providerPercentages recW ≠ [] ∧
    (∀ x ∈ providerPercentages recW, x = JsNum.nan) ∧
    modelPercentages recW ≠ [] ∧
    (∀ x ∈ modelPercentages recW, x = JsNum.nan) :=
  summary_percentages_nan recW (by simp [recW])
    (by intro r hr; simp [recW] at hr; rw [hr])

end CostDashboard
